import Mathlib

/-!
# Verification of the `just-todo-it` TODO indexer

A shallow embedding of the core logic of the `just-todo-it` VS Code
extension (scanner `todoScanner.ts`, view model `todoTreeProvider.ts`,
string utilities `utils.ts`, single-file update path of `extension.ts`),
together with theorems settling the specification's claims about it.

JavaScript strings are modelled as `List Char`.  JS `String.prototype.trim`
and the regex class `\s` are modelled by `Char.isWhitespace` (they agree on
ASCII, which is all that occurs in this development), and
`String.prototype.localeCompare` is modelled as code-point lexicographic
comparison (the ICU collation agrees with code-point order on the
ASCII inputs exercised here).
-/

namespace JustTodoIt

/-- JavaScript strings, modelled as lists of characters. -/
abbrev Str := List Char

/-- The character class `\s` of the scanner's regex and the whitespace set of
`String.prototype.trim`, modelled as `Char.isWhitespace`. -/
def isSpace (c : Char) : Bool := c.isWhitespace

/-- Drop leading whitespace (the left half of `String.prototype.trim`). -/
def trimLeft (s : Str) : Str := s.dropWhile isSpace

/-- Drop trailing whitespace (the right half of `String.prototype.trim`). -/
def trimRight (s : Str) : Str := (s.reverse.dropWhile isSpace).reverse

/-- JS `String.prototype.trim`: drop leading and trailing whitespace. -/
def trim (s : Str) : Str := trimRight (trimLeft s)

/-!
## Scanner (`todoScanner.ts`)

The scanner applies the global regex

  `TODO_PATTERN = /TODO\(([^)]+)\):\s*(.*)/g`

to each line via a `while ((match = TODO_PATTERN.exec(line)) !== null)` loop,
resetting `lastIndex` to `0` at the start of each line, and pushes a record
`{label: match[1].trim(), text: match[2].trim(), column: match.index}` per
match.

The embedding below follows JS regex semantics for this particular pattern:

* `[^)]+` can never cross a `)`, so the greedy run stops right before the
  first `)` of the remaining text; since the mandatory `\)` right after it
  can only consume a `)` and giving characters back from the `[^)]+` run
  re-exposes a character that is not `)`, backtracking cannot produce any
  other division.  Hence a match at a given start position exists iff the
  text there starts with the literal `TODO(`, at least one non-`)` character
  precedes the next `)`, and that `)` is immediately followed by `:`.
* `\s*` then greedily eats the whitespace run after the colon and `(.*)`
  captures the entire remainder of the line (a line produced by
  `text.split('\n')` contains no newline, the only character `.` refuses).
* `exec` on a `/g` regex returns the leftmost match starting at or after
  `lastIndex` and then sets `lastIndex` to the end of the match — which for
  this pattern is the end of the line, because `(.*)` is greedy.
-/

/-- One record pushed by the per-line scan loop of `TodoScanner.scanFile`:
`match[1].trim()`, `match[2].trim()` and `match.index`. -/
structure TodoMatch where
  label : Str
  text : Str
  column : Nat
deriving Repr, DecidableEq

/-- The backtracking-free residue of `[^)]+\)`: split the text at its first
`)`, returning the (possibly empty) run before it and the text after it;
`none` when no `)` occurs at all. -/
def splitAtParen : Str → Option (Str × Str)
  | [] => none
  | c :: rest =>
    if c = ')' then some ([], rest)
    else (splitAtParen rest).map (fun p => (c :: p.1, p.2))

/-- Attempt to match `TODO\(([^)]+)\):\s*(.*)` at the start of `l`.  Returns
the raw capture groups (label before trimming, text after the `\s*` but
before trimming) and the total number of characters the match consumes. -/
def matchTodoAt (l : Str) : Option (Str × Str × Nat) :=
  match l with
  | 'T' :: 'O' :: 'D' :: 'O' :: '(' :: rest =>
    match splitAtParen rest with
    | none => none
    | some (lab, afterParen) =>
      if lab.isEmpty then none
      else
        match afterParen with
        | ':' :: tail =>
          some (lab, tail.dropWhile isSpace, 5 + lab.length + 2 + tail.length)
        | _ => none
  | _ => none

/-- Model of `TODO_PATTERN.exec` with `lastIndex` pointing at the suffix `l` of the
line, whose first character has absolute index `i`: return the leftmost
match at index `≥ i` as the record pushed by `scanFile`, together with the
regex's `lastIndex` after the match (`match.index + match[0].length`). -/
def execFrom : Str → Nat → Option (TodoMatch × Nat)
  | [], _ => none
  | c :: rest, i =>
    match matchTodoAt (c :: rest) with
    | some (lab, txt, len) => some (⟨trim lab, trim txt, i⟩, i + len)
    | none => execFrom rest (i + 1)

/-- The `while ((match = TODO_PATTERN.exec(line)) !== null)` loop of
`TodoScanner.scanFile`, with explicit fuel (each successful `exec` advances
`lastIndex` by the positive match length, so `line.length + 1` iterations
always suffice). -/
def scanLineGo : Nat → Str → Nat → List TodoMatch
  | 0, _, _ => []
  | fuel + 1, line, pos =>
    match execFrom (line.drop pos) pos with
    | none => []
    | some (m, next) => m :: scanLineGo fuel line next

/-- The per-line scan of `TodoScanner.scanFile`: reset `lastIndex` to `0`
and collect the records of every `exec` iteration in order. -/
def scanLine (line : Str) : List TodoMatch :=
  scanLineGo (line.length + 1) line 0

/-- Structure `TodoItem` of `types.ts`. -/
structure TodoItem where
  label : Str
  text : Str
  filePath : Str
  relativePath : Str
  line : Nat
  column : Nat
deriving Repr, DecidableEq

/-- Model of `text.split('\n')` in `TodoScanner.scanFile`. -/
def splitLines (text : Str) : List Str := text.splitOn '\n'

/-- The pure core of `TodoScanner.scanFile`: given the file's absolute path,
its workspace-relative path and its full text, scan each line in order and
assemble the `TodoItem`s exactly as the nested loops push them. -/
def scanFile (fsPath relativePath text : Str) : List TodoItem :=
  (splitLines text).enum.flatMap (fun p =>
    (scanLine p.2).map (fun m =>
      ⟨m.label, m.text, fsPath, relativePath, p.1, m.column⟩))

/-!
## String utilities (`utils.ts`)
-/

/-- JS `toLowerCase`, modelled as character-wise `Char.toLower`. -/
def toLowerStr (s : Str) : Str := s.map Char.toLower

/-- The scanning loop of `fuzzyMatch` (after both strings were lower-cased):
walk the haystack once; on a character equal to the current pattern
character, advance the pattern; succeed when the pattern is exhausted. -/
def fuzzyGo : Str → Str → Bool
  | _, [] => true
  | [], _ :: _ => false
  | c :: s, p :: ps => fuzzyGo s (if c = p then ps else p :: ps)

/-- Function `fuzzyMatch(str, pattern)` of `utils.ts`. -/
def fuzzyMatch (str pattern : Str) : Bool :=
  fuzzyGo (toLowerStr str) (toLowerStr pattern)

/-- Function `createSearchableString(relativePath, label, text)` of `utils.ts`:
the template literal `relativePath + " TODO(" + label + "): " + text`. -/
def createSearchableString (relativePath label text : Str) : Str :=
  relativePath ++ (" TODO(").data ++ label ++ ("): ").data ++ text

/-!
## View model (`todoTreeProvider.ts`, `todoTreeItem.ts`)
-/

/-- Type `ViewMode` of `todoTreeProvider.ts`. -/
inductive ViewMode
  | grouped
  | byTag
  | flat
deriving DecidableEq, Repr, BEq

/-- The `modes` array of `toggleViewMode`. -/
def viewModes : List ViewMode := [.grouped, .byTag, .flat]

/-- Method `TodoTreeProvider.toggleViewMode` (the `cycleViewMode` of the spec),
restricted to its state transition: look the current mode up in `modes` and
step to `modes[(currentIndex + 1) % modes.length]`. -/
def toggleViewMode (m : ViewMode) : ViewMode :=
  (viewModes.getD ((viewModes.indexOf m + 1) % viewModes.length) .grouped)

/-- Enumeration `vscode.TreeItemCollapsibleState`. -/
inductive CollapsibleState
  | leaf
  | collapsed
  | expanded
deriving DecidableEq, Repr

/-- The three `nodeType` values of `TodoTreeItem`. -/
inductive NodeType
  | label
  | file
  | todo
deriving DecidableEq, Repr

/-- Class `TodoTreeItem` of `todoTreeItem.ts`, restricted to the data the
constructor stores (icon/tooltip/command decoration omitted). -/
structure TodoTreeItem where
  label : Str
  collapsibleState : CollapsibleState
  nodeType : NodeType
  todoItem : Option TodoItem
  todoLabel : Option Str
  fileName : Option Str
deriving Repr, DecidableEq

/-- Method `TodoTreeProvider.getFilteredTodos`, with the provider's `todos` and
`filterPattern` fields as arguments: empty pattern returns the list as is;
a pattern starting with `@` filters by exact label equality against the
pattern without its first character; any other pattern filters by
`fuzzyMatch` against the searchable string. -/
def getFilteredTodos (todos : List TodoItem) (filterPattern : Str) : List TodoItem :=
  match filterPattern with
  | [] => todos
  | '@' :: labelFilter => todos.filter (fun t => t.label == labelFilter)
  | _ => todos.filter (fun t =>
      fuzzyMatch (createSearchableString t.relativePath t.label t.text) filterPattern)

/-- JS `String.prototype.localeCompare` used as a sort comparator, modelled as
code-point lexicographic order on the character lists (ICU collation and
code-point order agree on the ASCII strings this development exercises). -/
def strLe : Str → Str → Bool
  | [], _ => true
  | _ :: _, [] => false
  | a :: as, b :: bs => if a < b then true else if a = b then strLe as bs else false

/-- The comparator relation fed to the sort. -/
def StrLeR (a b : Str) : Prop := strLe a b = true

instance : DecidableRel StrLeR := fun a b => instDecidableEqBool (strLe a b) true

/-- JS `[...].sort((a, b) => a.localeCompare(b))` on strings, modelled as a
stable insertion sort under the code-point order. -/
def sortStrings (l : List Str) : List Str := l.insertionSort StrLeR

/-- JS `toString` on a count, as interpolated into a template literal. -/
def natToStr (n : Nat) : Str := (toString n).data

/-- JS `Map.prototype.set` on an insertion-ordered string-keyed map,
modelled on an association list: an existing key is updated in place, a new
key is appended at the end. -/
def mapSet (m : List (Str × List TodoItem)) (k : Str) (v : List TodoItem) :
    List (Str × List TodoItem) :=
  match m with
  | [] => [(k, v)]
  | (k', v') :: rest => if k' = k then (k, v) :: rest else (k', v') :: mapSet rest k v

/-- JS `Map.prototype.get`: the value stored under the key, if any. -/
def mapGet : List (Str × List TodoItem) → Str → Option (List TodoItem)
  | [], _ => none
  | (k', v) :: rest, k => if k' = k then some v else mapGet rest k

/-- The map-building loop shared by `getLabelGroups` and `getFileGroups`:
`const existing = map.get(key(todo)) || []; existing.push(todo);
map.set(key(todo), existing)` over the list in order. -/
def buildMap (key : TodoItem → Str) (todos : List TodoItem) :
    List (Str × List TodoItem) :=
  todos.foldl (fun m t => mapSet m (key t) (((mapGet m (key t)).getD []) ++ [t])) []

/-- Method `TodoTreeProvider.getLabelGroups`: group the (already filtered) records
by label, sort the labels, and emit one expanded `label` node per label,
displaying the label and the record count under it. -/
def getLabelGroups (todos : List TodoItem) : List TodoTreeItem :=
  let labelMap := buildMap (fun t => t.label) todos
  let sortedLabels := sortStrings (labelMap.map (fun p => p.1))
  sortedLabels.map (fun label =>
    let count := ((mapGet labelMap label).getD []).length
    ⟨label ++ (" (").data ++ natToStr count ++ (")").data,
     .expanded, .label, none, some label, none⟩)

/-- Method `TodoTreeProvider.getFileGroups`: among the filtered records with the
given label, group by relative path, sort the paths, and emit one expanded
`file` node per path with its count. -/
def getFileGroups (todos : List TodoItem) (label : Str) : List TodoTreeItem :=
  let labelTodos := todos.filter (fun t => t.label == label)
  let fileMap := buildMap (fun t => t.relativePath) labelTodos
  let sortedFiles := sortStrings (fileMap.map (fun p => p.1))
  sortedFiles.map (fun fileName =>
    let count := ((mapGet fileMap fileName).getD []).length
    ⟨fileName ++ (" (").data ++ natToStr count ++ (")").data,
     .expanded, .file, none, some label, some fileName⟩)

/-- The display string `TODO(label): text` composed by `getFlatItems` both
as sort key and as leaf label. -/
def flatDisplay (t : TodoItem) : Str :=
  ("TODO(").data ++ t.label ++ ("): ").data ++ t.text

/-- The sort relation of `getFlatItems`. -/
def FlatLeR (a b : TodoItem) : Prop := strLe (flatDisplay a) (flatDisplay b) = true

instance : DecidableRel FlatLeR :=
  fun a b => instDecidableEqBool (strLe (flatDisplay a) (flatDisplay b)) true

/-- The sort relation of `getTodosForFile` and `getTodosForLabel`
(`a.text.localeCompare(b.text)`). -/
def TextLeR (a b : TodoItem) : Prop := strLe a.text b.text = true

instance : DecidableRel TextLeR :=
  fun a b => instDecidableEqBool (strLe a.text b.text) true

/-- Method `TodoTreeProvider.getFlatItems`: all records sorted by the composed
string `TODO(label): text`, each as a non-collapsible `todo` leaf whose
display label is that same composed string. -/
def getFlatItems (todos : List TodoItem) : List TodoTreeItem :=
  (todos.insertionSort FlatLeR).map (fun t =>
    ⟨flatDisplay t, .leaf, .todo, some t, none, none⟩)

/-- Method `TodoTreeProvider.getTodosForFile`: records with the given label and
relative path, sorted by text, as `todo` leaves displaying
`todo.text || '(empty)'`. -/
def getTodosForFile (todos : List TodoItem) (label fileName : Str) :
    List TodoTreeItem :=
  ((todos.filter (fun t => t.label == label && t.relativePath == fileName)).insertionSort
    TextLeR).map (fun t =>
      ⟨if t.text.isEmpty then ("(empty)").data else t.text,
       .leaf, .todo, some t, some label, some fileName⟩)

/-- Method `TodoTreeProvider.getTodosForLabel`: records with the given label,
sorted by text, as `todo` leaves displaying `todo.text || '(empty)'`. -/
def getTodosForLabel (todos : List TodoItem) (label : Str) : List TodoTreeItem :=
  ((todos.filter (fun t => t.label == label)).insertionSort TextLeR).map (fun t =>
    ⟨if t.text.isEmpty then ("(empty)").data else t.text,
     .leaf, .todo, some t, some label, none⟩)

/-- The root case of `TodoTreeProvider.getChildren`: filter, then flat items
in `flat` mode and label groups in `grouped`/`byTag` mode. -/
def getChildrenRoot (todos : List TodoItem) (filterPattern : Str) (mode : ViewMode) :
    List TodoTreeItem :=
  let filteredTodos := getFilteredTodos todos filterPattern
  match mode with
  | .flat => getFlatItems filteredTodos
  | _ => getLabelGroups filteredTodos

/-!
## Single-file update (`extension.ts`)

`scanDocument` re-scans one saved document and calls
`treeProvider.setTodosForFile(document.uri.fsPath, todos)`; the delete
watcher calls `setTodosForFile(file.fsPath, [])`.
-/

/-- Modelled from the spec: the body of `TodoTreeProvider.setTodosForFile`
is not part of the provider source under `src/` (only its callers
`scanDocument` and the delete watcher in `extension.ts` are).  Spec 4.3,
`scanOne`: "re-scan a single file and replace exactly that file's records in
the index (match by absolute path equality), leaving all other files'
records untouched.  If the file no longer exists or yields no matches, its
prior records are removed (replaced with empty)." -/
def setTodosForFile (todos : List TodoItem) (fsPath : Str) (newTodos : List TodoItem) :
    List TodoItem :=
  (todos.filter (fun t => t.filePath != fsPath)) ++ newTodos

/-- The record set of the spec's end-to-end example: `a.ts` containing
`// TODO(x): fix a` and `// TODO(y): fix b` on lines 0 and 1, `b.ts`
containing `// TODO(x): fix c` on line 3, both scanned by the scanner. -/
def exampleTodos : List TodoItem :=
  scanFile ("/w/a.ts").data ("a.ts").data
    ("// TODO(x): fix a\n// TODO(y): fix b").data ++
  scanFile ("/w/b.ts").data ("b.ts").data ("\n\n\n// TODO(x): fix c").data

/-!
## Theorems
-/

/-- The comparator is total. -/
theorem strLe_total : ∀ a b : Str, strLe a b = true ∨ strLe b a = true := by
  intro a
  induction a with
  | nil => intro b; left; rfl
  | cons x xs ih =>
    intro b
    cases b with
    | nil => right; rfl
    | cons y ys =>
      rcases lt_trichotomy x y with h | h | h
      · left; simp [strLe, h]
      · subst h
        rcases ih ys with h' | h'
        · left; simp [strLe, h']
        · right; simp [strLe, h']
      · right; simp [strLe, h]

/-- The comparator is transitive. -/
theorem strLe_trans : ∀ a b c : Str,
    strLe a b = true → strLe b c = true → strLe a c = true := by
  intro a
  induction a with
  | nil => intro b c _ _; rfl
  | cons x xs ih =>
    intro b c hab hbc
    cases b with
    | nil => simp [strLe] at hab
    | cons y ys =>
      cases c with
      | nil => simp [strLe] at hbc
      | cons z zs =>
        rw [strLe] at hab hbc ⊢
        by_cases hxy : x < y
        · by_cases hyz : y < z
          · simp [lt_trans hxy hyz]
          · by_cases hyz' : y = z
            · simp [hyz' ▸ hxy]
            · simp [hyz, hyz'] at hbc
        · by_cases hxy' : x = y
          · subst hxy'
            by_cases hxz : x < z
            · simp [hxz]
            · by_cases hxz' : x = z
              · subst hxz'
                simp [lt_irrefl] at hab hbc ⊢
                exact ih ys zs hab hbc
              · simp [hxz, hxz'] at hbc
          · simp [hxy, hxy'] at hab

instance : IsTotal Str StrLeR := ⟨strLe_total⟩

instance : IsTrans Str StrLeR := ⟨fun a b c => strLe_trans a b c⟩

/-- Reading `Map.get` after `Map.set`. -/
theorem mapGet_mapSet (m : List (Str × List TodoItem)) (k k' : Str)
    (v : List TodoItem) :
    mapGet (mapSet m k v) k' = if k' = k then some v else mapGet m k' := by
  induction m with
  | nil =>
    by_cases h : k' = k
    · simp [mapSet, mapGet, h]
    · simp [mapSet, mapGet, h, Ne.symm h]
  | cons p rest ih =>
    obtain ⟨pk, pv⟩ := p
    by_cases hpk : pk = k
    · subst hpk
      by_cases h : k' = pk
      · simp [mapSet, mapGet, h]
      · simp [mapSet, mapGet, h, Ne.symm h]
    · rw [mapSet, if_neg hpk]
      by_cases h2 : pk = k'
      · have hk : ¬k' = k := fun hh => hpk (h2.trans hh)
        simp [mapGet, h2, hk]
      · by_cases h3 : k' = k
        · subst h3
          simp [mapGet, hpk, h2, ih]
        · simp [mapGet, h2, h3, ih]

/-- Keys after `Map.set`: an existing key stays in place, a new key is appended. -/
theorem keys_mapSet (m : List (Str × List TodoItem)) (k : Str) (v : List TodoItem) :
    (mapSet m k v).map (fun p => p.1) =
      if k ∈ m.map (fun p => p.1) then m.map (fun p => p.1)
      else m.map (fun p => p.1) ++ [k] := by
  induction m with
  | nil => simp [mapSet]
  | cons p rest ih =>
    obtain ⟨pk, pv⟩ := p
    by_cases hpk : pk = k
    · subst hpk
      simp [mapSet]
    · rw [mapSet, if_neg hpk]
      by_cases hmem : k ∈ rest.map (fun p => p.1)
      · simp [hmem, ih, Ne.symm hpk]
      · simp [hmem, ih, Ne.symm hpk]

/-- Key membership after `Map.set`. -/
theorem mem_keys_mapSet (m : List (Str × List TodoItem)) (k k' : Str)
    (v : List TodoItem) :
    k' ∈ (mapSet m k v).map (fun p => p.1) ↔
      k' ∈ m.map (fun p => p.1) ∨ k' = k := by
  rw [keys_mapSet]
  by_cases hmem : k ∈ m.map (fun p => p.1)
  · simp only [if_pos hmem]
    constructor
    · exact fun h => Or.inl h
    · rintro (h | rfl)
      · exact h
      · exact hmem
  · simp [if_neg hmem]

/-- Distinctness of keys is preserved by `Map.set`. -/
theorem nodup_keys_mapSet (m : List (Str × List TodoItem)) (k : Str)
    (v : List TodoItem) (h : (m.map (fun p => p.1)).Nodup) :
    ((mapSet m k v).map (fun p => p.1)).Nodup := by
  rw [keys_mapSet]
  by_cases hmem : k ∈ m.map (fun p => p.1)
  · simpa [hmem] using h
  · simp only [if_neg hmem]
    simp [List.nodup_append, h, hmem]

/-- The grouping fold stores, under each key, exactly the (in-order) items
whose key it is, appended after whatever the initial map already held. -/
theorem foldl_build_get (key : TodoItem → Str) :
    ∀ (todos : List TodoItem) (m : List (Str × List TodoItem)) (k : Str),
      (mapGet (todos.foldl (fun acc t =>
          mapSet acc (key t) (((mapGet acc (key t)).getD []) ++ [t])) m) k).getD [] =
        (mapGet m k).getD [] ++ todos.filter (fun t => key t == k) := by
  intro todos
  induction todos with
  | nil => intro m k; simp
  | cons t ts ih =>
    intro m k
    rw [List.foldl_cons, ih, mapGet_mapSet, List.filter_cons]
    by_cases h : k = key t
    · rw [if_pos h, if_pos (by simp [h.symm])]
      subst h
      simp [List.append_assoc]
    · rw [if_neg h, if_neg (by simp only [beq_iff_eq]; exact fun hh => h hh.symm)]

/-- The keys of the grouping fold are the initial keys plus every key that
occurs in the list. -/
theorem foldl_build_keys_mem (key : TodoItem → Str) :
    ∀ (todos : List TodoItem) (m : List (Str × List TodoItem)) (k : Str),
      (k ∈ (todos.foldl (fun acc t =>
          mapSet acc (key t) (((mapGet acc (key t)).getD []) ++ [t])) m).map
            (fun p => p.1)) ↔
        k ∈ m.map (fun p => p.1) ∨ k ∈ todos.map key := by
  intro todos
  induction todos with
  | nil => intro m k; simp
  | cons t ts ih =>
    intro m k
    rw [List.foldl_cons, ih, mem_keys_mapSet]
    simp only [List.map_cons, List.mem_cons]
    tauto

/-- The grouping fold keeps the keys distinct. -/
theorem foldl_build_keys_nodup (key : TodoItem → Str) :
    ∀ (todos : List TodoItem) (m : List (Str × List TodoItem)),
      (m.map (fun p => p.1)).Nodup →
      ((todos.foldl (fun acc t =>
          mapSet acc (key t) (((mapGet acc (key t)).getD []) ++ [t])) m).map
            (fun p => p.1)).Nodup := by
  intro todos
  induction todos with
  | nil => intro m h; exact h
  | cons t ts ih =>
    intro m h
    rw [List.foldl_cons]
    exact ih _ (nodup_keys_mapSet m (key t) _ h)

/-- The bucket stored by `buildMap` under a key is the in-order sublist of
items carrying that key. -/
theorem buildMap_get (key : TodoItem → Str) (todos : List TodoItem) (k : Str) :
    (mapGet (buildMap key todos) k).getD [] = todos.filter (fun t => key t == k) := by
  have h := foldl_build_get key todos [] k
  simpa [buildMap, mapGet] using h

/-- The keys of `buildMap` are exactly the keys occurring in the list. -/
theorem buildMap_keys_mem (key : TodoItem → Str) (todos : List TodoItem) (k : Str) :
    k ∈ (buildMap key todos).map (fun p => p.1) ↔ k ∈ todos.map key := by
  have h := foldl_build_keys_mem key todos [] k
  simpa [buildMap] using h

/-- The keys of `buildMap` are pairwise distinct. -/
theorem buildMap_keys_nodup (key : TodoItem → Str) (todos : List TodoItem) :
    ((buildMap key todos).map (fun p => p.1)).Nodup := by
  have h := foldl_build_keys_nodup key todos [] (by simp)
  simpa [buildMap] using h

/-- Sorting permutes. -/
theorem sortStrings_perm (l : List Str) : List.Perm (sortStrings l) l :=
  List.perm_insertionSort StrLeR l

/-- Sorting sorts. -/
theorem sortStrings_sorted (l : List Str) : List.Sorted StrLeR (sortStrings l) :=
  List.sorted_insertionSort StrLeR l

/-- Sorting preserves membership. -/
theorem sortStrings_mem (l : List Str) (a : Str) : a ∈ sortStrings l ↔ a ∈ l :=
  (sortStrings_perm l).mem_iff

/-- Sorting preserves distinctness. -/
theorem sortStrings_nodup (l : List Str) (h : l.Nodup) : (sortStrings l).Nodup :=
  ((sortStrings_perm l).nodup_iff).mpr h

/-- Summing a pointwise sum splits. -/
theorem sum_map_add (f g : Str → Nat) (L : List Str) :
    (L.map (fun l => f l + g l)).sum = (L.map f).sum + (L.map g).sum := by
  induction L with
  | nil => simp
  | cons a L ih => simp [ih]; omega

/-- The indicator of an absent element sums to zero. -/
theorem sum_indicator_zero (a : Str) (L : List Str) (h : a ∉ L) :
    (L.map (fun l => if a = l then 1 else 0)).sum = 0 := by
  induction L with
  | nil => simp
  | cons b L ih =>
    have hab : a ≠ b := fun hh => h (hh ▸ List.mem_cons_self b L)
    have hL : a ∉ L := fun hh => h (List.mem_cons_of_mem b hh)
    simp [hab, ih hL]

/-- The indicator of an element present in a duplicate-free list sums to
one. -/
theorem sum_indicator_one (a : Str) (L : List Str) (hnd : L.Nodup) (h : a ∈ L) :
    (L.map (fun l => if a = l then 1 else 0)).sum = 1 := by
  induction L with
  | nil => exact absurd h (List.not_mem_nil a)
  | cons b L ih =>
    rcases List.mem_cons.mp h with rfl | hmem
    · have hnotin : a ∉ L := (List.nodup_cons.mp hnd).1
      simp [sum_indicator_zero a L hnotin]
    · have hab : a ≠ b := fun hh => (List.nodup_cons.mp hnd).1 (hh ▸ hmem)
      simp [hab, ih (List.nodup_cons.mp hnd).2 hmem]

/-- Filtering by each key of a duplicate-free, complete key list partitions
the items: the bucket sizes sum to the total count. -/
theorem sum_filter_lengths (L : List Str) (ts : List TodoItem)
    (key : TodoItem → Str) (hnd : L.Nodup) (hc : ∀ t ∈ ts, key t ∈ L) :
    (L.map (fun l => (ts.filter (fun t => key t == l)).length)).sum = ts.length := by
  induction ts with
  | nil => simp
  | cons t rest ih =>
    have hmap : (L.map (fun l => (((t :: rest).filter (fun u => key u == l))).length)) =
        L.map (fun l => (if key t = l then 1 else 0) +
          (rest.filter (fun u => key u == l)).length) := by
      apply List.map_congr_left
      intro l _
      rw [List.filter_cons]
      by_cases h : key t = l
      · simp [h, Nat.add_comm]
      · simp [h]
    rw [hmap, sum_map_add,
      sum_indicator_one (key t) L hnd (hc t (List.mem_cons_self t rest)),
      ih (fun u hu => hc u (List.mem_cons_of_mem t hu))]
    simp [Nat.add_comm]

/-- Shape of `getLabelGroups`, with the bucket lookups replaced by the filters they
compute. -/
theorem getLabelGroups_eq (ts : List TodoItem) :
    getLabelGroups ts =
      (sortStrings ((buildMap (fun t => t.label) ts).map (fun p => p.1))).map
        (fun l => ⟨l ++ (" (").data ++
            natToStr ((ts.filter (fun t => t.label == l)).length) ++ (")").data,
          .expanded, .label, none, some l, none⟩) := by
  simp only [getLabelGroups, buildMap_get]

/-- The label-group nodes partition an arbitrary record set: distinct
labels, one per record label in both directions, and counts summing to the
total. -/
theorem labelGroups_partition (ts : List TodoItem) :
    ((getLabelGroups ts).map (fun it => it.todoLabel)).Nodup
    ∧ (∀ t ∈ ts, some t.label ∈ (getLabelGroups ts).map (fun it => it.todoLabel))
    ∧ (∀ it ∈ getLabelGroups ts, ∃ t ∈ ts, it.todoLabel = some t.label)
    ∧ ((getLabelGroups ts).map (fun it =>
        (ts.filter (fun t => t.label == it.todoLabel.getD [])).length)).sum =
      ts.length := by
  have hkeys_nodup := buildMap_keys_nodup (fun t => t.label) ts
  have hsorted_nodup := sortStrings_nodup _ hkeys_nodup
  have hmap : (getLabelGroups ts).map (fun it => it.todoLabel) =
      (sortStrings ((buildMap (fun t => t.label) ts).map (fun p => p.1))).map some := by
    rw [getLabelGroups_eq, List.map_map]
    rfl
  refine ⟨?_, ?_, ?_, ?_⟩
  · rw [hmap]
    exact hsorted_nodup.map (fun a b h => Option.some.inj h)
  · intro t ht
    rw [hmap]
    have h1 : t.label ∈ ts.map (fun t => t.label) := List.mem_map_of_mem _ ht
    have h2 := (sortStrings_mem _ _).mpr ((buildMap_keys_mem (fun t => t.label) ts _).mpr h1)
    exact List.mem_map_of_mem some h2
  · intro it hit
    rw [getLabelGroups_eq] at hit
    obtain ⟨l, hl, rfl⟩ := List.mem_map.mp hit
    have h1 := (buildMap_keys_mem (fun t => t.label) ts l).mp ((sortStrings_mem _ l).mp hl)
    obtain ⟨t, ht, hteq⟩ := List.mem_map.mp h1
    exact ⟨t, ht, by rw [hteq]⟩
  · have hmap2 : (getLabelGroups ts).map (fun it =>
        (ts.filter (fun t => t.label == it.todoLabel.getD [])).length) =
        (sortStrings ((buildMap (fun t => t.label) ts).map (fun p => p.1))).map
          (fun l => (ts.filter (fun t => t.label == l)).length) := by
      rw [getLabelGroups_eq, List.map_map]
      rfl
    rw [hmap2]
    have hperm : List.Perm
        ((sortStrings ((buildMap (fun t => t.label) ts).map (fun p => p.1))).map
          (fun l => (ts.filter (fun t => t.label == l)).length))
        (((buildMap (fun t => t.label) ts).map (fun p => p.1)).map
          (fun l => (ts.filter (fun t => t.label == l)).length)) :=
      (sortStrings_perm _).map _
    rw [hperm.sum_eq]
    exact sum_filter_lengths _ ts (fun t => t.label) hkeys_nodup
      (fun t ht => (buildMap_keys_mem (fun t => t.label) ts _).mpr
        (List.mem_map_of_mem _ ht))

/-- The greedy left-to-right scan of `fuzzyMatch` succeeds exactly when the
pattern is a subsequence of the haystack. -/
theorem fuzzyGo_iff_sublist (s p : Str) : fuzzyGo s p = true ↔ p.Sublist s := by
  induction s generalizing p with
  | nil =>
    cases p with
    | nil => simp [fuzzyGo]
    | cons a ps => simp [fuzzyGo]
  | cons c s ih =>
    cases p with
    | nil => simp [fuzzyGo]
    | cons a ps =>
      by_cases h : c = a
      · subst h
        rw [fuzzyGo, if_pos rfl, ih, List.cons_sublist_cons]
      · rw [fuzzyGo, if_neg h, ih]
        constructor
        · exact fun hs => hs.cons c
        · intro hs
          cases hs with
          | cons _ h' => exact h'
          | cons₂ _ h' => exact absurd rfl h

/-- C2: `fuzzyMatch(s, p)` is case-insensitive and returns true iff the
lower-cased pattern is a subsequence of the lower-cased haystack (every
pattern character matched in order at strictly increasing positions); the
empty pattern matches every haystack. -/
theorem c2_fuzzy_match_iff_subsequence :
    (∀ s p : Str, fuzzyMatch s p = true ↔ (toLowerStr p).Sublist (toLowerStr s))
    ∧ ∀ s : Str, fuzzyMatch s [] = true :=
  ⟨fun s p => fuzzyGo_iff_sublist (toLowerStr s) (toLowerStr p),
   fun s => (fuzzyGo_iff_sublist (toLowerStr s) []).mpr (List.nil_sublist _)⟩

/-- C9: `cycleViewMode` advances the view mode in the fixed order
`grouped → byTag → flat → grouped` and performs no other transition;
consequently, from every starting mode, three successive calls return the
view mode to its original value. -/
theorem c9_cycle_view_mode :
    toggleViewMode .grouped = .byTag
    ∧ toggleViewMode .byTag = .flat
    ∧ toggleViewMode .flat = .grouped
    ∧ ∀ m : ViewMode, toggleViewMode (toggleViewMode (toggleViewMode m)) = m := by
  refine ⟨rfl, rfl, rfl, ?_⟩
  intro m
  cases m <;> rfl

/-- C6: with the empty filter pattern the filtering step is the
identity — in particular on the exact output of a file scan, preserving
order. -/
theorem c6_empty_filter_identity :
    (∀ todos : List TodoItem, getFilteredTodos todos [] = todos)
    ∧ ∀ fsPath relativePath text : Str,
        getFilteredTodos (scanFile fsPath relativePath text) [] =
          scanFile fsPath relativePath text :=
  ⟨fun _ => rfl, fun _ _ _ => rfl⟩

/-- C3: a filter pattern beginning with `@` selects exactly the records
whose label equals (case-sensitively, without trimming) the pattern after
the `@`; no fuzzy matching is applied.  In particular `@bug` selects a
record labelled `bug` and never one labelled `bug-123`. -/
theorem c3_at_pattern_exact_label :
    (∀ (todos : List TodoItem) (rest : Str),
        getFilteredTodos todos ('@' :: rest) =
          todos.filter (fun t => t.label == rest))
    ∧ getFilteredTodos
        [⟨("bug").data, [], [], [], 0, 0⟩, ⟨("bug-123").data, [], [], [], 0, 0⟩]
        (("@bug").data) =
        [⟨("bug").data, [], [], [], 0, 0⟩] :=
  ⟨fun _ _ => rfl, by decide⟩

/-- C1, evaluation at the failing input: on a line carrying two
occurrences of `TODO(label): text`, the per-line scan loop returns exactly
one triple — the regex's greedy `(.*)` swallows the rest of the line, so the
second occurrence ends up inside the first record's text instead of
producing a second record. -/
theorem c1_two_todos_single_match :
    scanLine (("TODO(a): x TODO(b): y").data) =
      [⟨("a").data, ("x TODO(b): y").data, 0⟩]
    ∧ (scanLine (("TODO(a): x TODO(b): y").data)).length ≠ 2 := by
  refine ⟨by decide, ?_⟩
  decide

/-- C5: re-scanning a single file replaces exactly that file's records
(matched by absolute path equality) with the newly scanned ones, leaving
every other file's records unchanged; when the re-scan yields no records
(file deleted or no matches), the file's prior records are simply removed.
The replacement itself (`setTodosForFile`) is modelled from the spec, its
body being absent from the sources under `src/`. -/
theorem c5_scanOne_frame :
    ∀ (todos : List TodoItem) (fsPath : Str) (newTodos : List TodoItem),
      (∀ t ∈ newTodos, t.filePath = fsPath) →
      ((∀ p : Str, p ≠ fsPath →
          (setTodosForFile todos fsPath newTodos).filter (fun t => t.filePath == p) =
            todos.filter (fun t => t.filePath == p))
       ∧ (setTodosForFile todos fsPath newTodos).filter (fun t => t.filePath == fsPath) =
           newTodos
       ∧ (newTodos = [] →
           setTodosForFile todos fsPath newTodos =
             todos.filter (fun t => t.filePath != fsPath))) := by
  intro todos fsPath newTodos hnew
  refine ⟨?_, ?_, ?_⟩
  · intro p hp
    rw [setTodosForFile, List.filter_append]
    have h1 : newTodos.filter (fun t => t.filePath == p) = [] := by
      rw [List.filter_eq_nil_iff]
      intro t ht
      simp [hnew t ht]
      exact fun h => hp h.symm
    rw [h1, List.append_nil, List.filter_filter]
    apply List.filter_congr
    intro t _
    by_cases h : t.filePath = p
    · have hne : t.filePath ≠ fsPath := by rw [h]; exact hp
      simp [h, hne]
      exact hp
    · simp [h]
  · rw [setTodosForFile, List.filter_append]
    have h1 : (todos.filter (fun t => t.filePath != fsPath)).filter
        (fun t => t.filePath == fsPath) = [] := by
      rw [List.filter_eq_nil_iff]
      intro t ht
      have := List.of_mem_filter ht
      simp_all
    have h2 : newTodos.filter (fun t => t.filePath == fsPath) = newTodos := by
      rw [List.filter_eq_self]
      intro t ht
      simp [hnew t ht]
    rw [h1, h2, List.nil_append]
  · intro h
    subst h
    simp [setTodosForFile]

/-- C5 witness: from the index `{a.ts: 2 records, b.ts: 1 record}`,
`scanOne(a.ts)` returning empty yields `{b.ts: 1 record}`. -/
theorem c5_scanOne_frame_witness :
    setTodosForFile
      [⟨("x").data, ("fix a").data, ("/w/a.ts").data, ("a.ts").data, 0, 3⟩,
       ⟨("y").data, ("fix b").data, ("/w/a.ts").data, ("a.ts").data, 1, 3⟩,
       ⟨("x").data, ("fix c").data, ("/w/b.ts").data, ("b.ts").data, 3, 3⟩]
      (("/w/a.ts").data) [] =
      [⟨("x").data, ("fix c").data, ("/w/b.ts").data, ("b.ts").data, 3, 3⟩] := by
  have h := (c5_scanOne_frame
    [⟨("x").data, ("fix a").data, ("/w/a.ts").data, ("a.ts").data, 0, 3⟩,
     ⟨("y").data, ("fix b").data, ("/w/a.ts").data, ("a.ts").data, 1, 3⟩,
     ⟨("x").data, ("fix c").data, ("/w/b.ts").data, ("b.ts").data, 3, 3⟩]
    (("/w/a.ts").data) []
    (fun t ht => absurd ht (List.not_mem_nil t))).2.2 rfl
  rw [h]
  decide

/-- C8 counterexample: in `flat` mode the leaf node of a record displays
the composed string `TODO(label): text` — for a record with label `x` and
empty text it is `TODO(x): `, which is neither the record's (empty) text
nor the `(empty)` placeholder, refuting the claim's "every view mode". -/
theorem c8_counterexample_flat_display :
    (getChildrenRoot [⟨("x").data, [], ("/w/a.ts").data, ("a.ts").data, 0, 0⟩] [] .flat).map
        (fun it => it.label) = [("TODO(x): ").data]
    ∧ ("TODO(x): ").data ≠ ("(empty)").data
    ∧ ("TODO(x): ").data ≠ ([] : Str) := by
  refine ⟨by decide, by decide, by decide⟩

/-- C8 amended: in `grouped` and `byTag` modes every leaf node
displays the record's text when non-empty and the literal `(empty)`
placeholder when empty; in `flat` mode every leaf instead displays the
composed string `TODO(label): text` regardless of emptiness. -/
theorem c8_amended_leaf_display :
    ∀ (todos : List TodoItem) (label fileName : Str),
      (∀ it ∈ getTodosForFile todos label fileName,
          it.todoItem.map (fun t => if t.text.isEmpty then ("(empty)").data else t.text) =
            some it.label)
      ∧ (∀ it ∈ getTodosForLabel todos label,
          it.todoItem.map (fun t => if t.text.isEmpty then ("(empty)").data else t.text) =
            some it.label)
      ∧ (∀ it ∈ getFlatItems todos,
          it.todoItem.map (fun t => flatDisplay t) = some it.label) := by
  intro todos label fileName
  refine ⟨?_, ?_, ?_⟩ <;>
    · intro it hit
      simp only [getTodosForFile, getTodosForLabel, getFlatItems, List.mem_map] at hit
      obtain ⟨t, ht, rfl⟩ := hit
      rfl

/-- C8 witness: the amended display rule, instantiated at a concrete
grouped-mode leaf for a record with empty text. -/
theorem c8_amended_witness :
    (TodoTreeItem.mk (("(empty)").data) .leaf .todo
        (some ⟨("x").data, [], ("/w/a.ts").data, ("a.ts").data, 0, 0⟩)
        (some ("x").data) (some ("a.ts").data)).todoItem.map
      (fun t => if t.text.isEmpty then ("(empty)").data else t.text) =
    some (TodoTreeItem.mk (("(empty)").data) .leaf .todo
        (some ⟨("x").data, [], ("/w/a.ts").data, ("a.ts").data, 0, 0⟩)
        (some ("x").data) (some ("a.ts").data)).label :=
  (c8_amended_leaf_display [⟨("x").data, [], ("/w/a.ts").data, ("a.ts").data, 0, 0⟩]
    (("x").data) (("a.ts").data)).1 _ (by decide)

/-- C4: in `grouped` and `byTag` mode the root children are exactly one
node per distinct label of the filtered set, sorted by label, each
displaying the label and the count of filtered records carrying it; on the
end-to-end example the root is `x (2)` then `y (1)`, and expanding `x` in
grouped mode yields `a.ts (1)` and `b.ts (1)`. -/
theorem c4_grouped_root_label_nodes :
    (∀ (todos : List TodoItem) (pattern : Str) (mode : ViewMode), mode ≠ .flat →
        getChildrenRoot todos pattern mode = getLabelGroups (getFilteredTodos todos pattern))
    ∧ (∀ ts : List TodoItem,
        List.Sorted StrLeR ((getLabelGroups ts).map (fun it => it.todoLabel.getD []))
        ∧ (((getLabelGroups ts).map (fun it => it.todoLabel)).Nodup)
        ∧ (∀ l : Str, some l ∈ (getLabelGroups ts).map (fun it => it.todoLabel) ↔
            l ∈ ts.map (fun t => t.label))
        ∧ (∀ it ∈ getLabelGroups ts,
            it.label = it.todoLabel.getD [] ++ (" (").data ++
              natToStr ((ts.filter (fun t => t.label == it.todoLabel.getD [])).length) ++
              (")").data))
    ∧ (getLabelGroups exampleTodos).map (fun it => it.label) =
        [("x (2)").data, ("y (1)").data]
    ∧ (getFileGroups exampleTodos ("x").data).map (fun it => it.label) =
        [("a.ts (1)").data, ("b.ts (1)").data] := by
  refine ⟨?_, ?_, by decide, by decide⟩
  · intro todos pattern mode hmode
    cases mode with
    | grouped => rfl
    | byTag => rfl
    | flat => exact absurd rfl hmode
  · intro ts
    have hkeys_nodup := buildMap_keys_nodup (fun t => t.label) ts
    have hmap : (getLabelGroups ts).map (fun it => it.todoLabel) =
        (sortStrings ((buildMap (fun t => t.label) ts).map (fun p => p.1))).map some := by
      rw [getLabelGroups_eq, List.map_map]
      rfl
    have hmap3 : (getLabelGroups ts).map (fun it => it.todoLabel.getD []) =
        sortStrings ((buildMap (fun t => t.label) ts).map (fun p => p.1)) := by
      rw [getLabelGroups_eq, List.map_map]
      exact List.map_id _
    refine ⟨?_, ?_, ?_, ?_⟩
    · rw [hmap3]
      exact sortStrings_sorted _
    · rw [hmap]
      exact (sortStrings_nodup _ hkeys_nodup).map (fun a b h => Option.some.inj h)
    · intro l
      rw [hmap]
      constructor
      · intro h
        obtain ⟨a, ha, hal⟩ := List.mem_map.mp h
        have haeq : a = l := Option.some.inj hal
        subst haeq
        exact (buildMap_keys_mem (fun t => t.label) ts a).mp ((sortStrings_mem _ a).mp ha)
      · intro h
        exact List.mem_map_of_mem some
          ((sortStrings_mem _ l).mpr ((buildMap_keys_mem (fun t => t.label) ts l).mpr h))
    · intro it hit
      rw [getLabelGroups_eq] at hit
      obtain ⟨l, hl, rfl⟩ := List.mem_map.mp hit
      rfl

/-- C4 witness: the display/count rule of the label-group nodes,
instantiated at the `x (2)` node of the end-to-end example. -/
theorem c4_grouped_root_witness :
    (⟨("x (2)").data, .expanded, .label, none, some ("x").data, none⟩ : TodoTreeItem).label =
      (⟨("x (2)").data, .expanded, .label, none, some ("x").data,
        none⟩ : TodoTreeItem).todoLabel.getD [] ++ (" (").data ++
        natToStr ((exampleTodos.filter (fun t => t.label ==
          (⟨("x (2)").data, .expanded, .label, none, some ("x").data,
            none⟩ : TodoTreeItem).todoLabel.getD [])).length) ++ (")").data :=
  ((c4_grouped_root_label_nodes.2.1 exampleTodos).2.2.2) _ (by decide)

/-- C10: for every record set and filter pattern, the label-group nodes
at the root of `grouped`/`byTag` mode partition the filtered records: their
labels are pairwise distinct, every filtered record's label appears as a
node, every node's label comes from a filtered record, and the per-node
record counts sum to the number of filtered records. -/
theorem c10_label_groups_partition :
    ∀ (todos : List TodoItem) (pattern : Str),
      ((getLabelGroups (getFilteredTodos todos pattern)).map
          (fun it => it.todoLabel)).Nodup
      ∧ (∀ t ∈ getFilteredTodos todos pattern,
          some t.label ∈ (getLabelGroups (getFilteredTodos todos pattern)).map
            (fun it => it.todoLabel))
      ∧ (∀ it ∈ getLabelGroups (getFilteredTodos todos pattern),
          ∃ t ∈ getFilteredTodos todos pattern, it.todoLabel = some t.label)
      ∧ ((getLabelGroups (getFilteredTodos todos pattern)).map (fun it =>
            ((getFilteredTodos todos pattern).filter
              (fun t => t.label == it.todoLabel.getD [])).length)).sum =
          (getFilteredTodos todos pattern).length :=
  fun todos pattern => labelGroups_partition (getFilteredTodos todos pattern)

/-- C10 witness: the partition property instantiated at a concrete
one-record set with the empty pattern. -/
theorem c10_label_groups_partition_witness :
    some (("bug").data) ∈
      (getLabelGroups (getFilteredTodos
        [⟨("bug").data, ("fix").data, ("/w/a.ts").data, ("a.ts").data, 0, 0⟩] [])).map
        (fun it => it.todoLabel) :=
  (c10_label_groups_partition
      [⟨("bug").data, ("fix").data, ("/w/a.ts").data, ("a.ts").data, 0, 0⟩] []).2.1
    ⟨("bug").data, ("fix").data, ("/w/a.ts").data, ("a.ts").data, 0, 0⟩ (by decide)

end JustTodoIt
